import Mathlib

/-!
Verification development for the prompthub-mcp repository.

This file gives a shallow embedding of the DAG orchestration engine
(`src/core/prompt-router.ts`) and of the per-prompt execution pipeline
(`src/core/prompt-module.ts`), and proves or refutes the specified
behavioural properties about them.

Modelling conventions:
* JavaScript values flowing through input/output maps are modelled by the
  JSON-like inductive `Value`; JavaScript objects are association lists with
  JS-object update semantics (`insertA` replaces in place, otherwise appends,
  exactly like property assignment on a JS object, so `assignA` mirrors
  `Object.assign`).
* Thrown JS exceptions are modelled with `Except`; `PromptHubMCPError` is the
  repository's structured error class, and `JSError` additionally covers the
  runtime `TypeError` raised by `nodeMap.get(nodeId)!` on a missing node and
  the engine stack-overflow that unbounded recursion would raise (the DFS is
  given fuel `nodes.length + 1`, which is never exhausted on the reachable
  states, and exhaustion maps to the stack-overflow error).
* Wall-clock readings of `Date.now()` are supplied by the caller as explicit
  numeric parameters, one per call site.
* External collaborators (the AI model adapter reached through
  `router.executePrompt`, and the SHA-256 primitive of crypto-js) are taken
  as function parameters, matching the specification's collaborator
  interfaces.
-/

namespace PromptHub

/-- JSON-like runtime value (the `any` values of the TypeScript source).
`vNull` models JS `null`/`undefined` payloads where they occur as data. -/
inductive Value where
  | vNull : Value
  | vBool : Bool → Value
  | vNum : Int → Value
  | vStr : String → Value
  | vArr : List Value → Value
  | vObj : List (String × Value) → Value

/-- A JS object used as a string-keyed map (`Record<string, any>`). -/
abbrev RecordMap := List (String × Value)

/-- Property lookup on a JS object: first binding for the key. -/
def lookupA {α : Type} (m : List (String × α)) (k : String) : Option α :=
  (m.find? (fun p => p.1 == k)).map (fun p => p.2)

/-- Property assignment on a JS object: overwrite the existing slot for the
key in place, otherwise append a fresh slot (JS property-order semantics). -/
def insertA {α : Type} (m : List (String × α)) (k : String) (v : α) :
    List (String × α) :=
  if m.any (fun p => p.1 == k) then
    m.map (fun p => if p.1 == k then (k, v) else p)
  else
    m ++ [(k, v)]

/-- `Object.assign(target, source)`: copy every binding of `source` into
`target`, in order, later bindings winning. -/
def assignA {α : Type} (target src : List (String × α)) : List (String × α) :=
  src.foldl (fun acc p => insertA acc p.1 p.2) target

/-- The value the last binding of `k` in `m` carries, if any (the value that
survives after all bindings of `m` are assigned in order). -/
def lastVal? {α : Type} : List (String × α) → String → Option α
  | [], _ => none
  | p :: rest, k =>
    match lastVal? rest k with
    | some v => some v
    | none => if p.1 == k then some p.2 else none

/-- Left-biased choice on options (used to state lookup-precedence facts). -/
def orElseO {α : Type} : Option α → Option α → Option α
  | some v, _ => some v
  | none, b => b

/-- Error codes of the repository's `ErrorCodes` enum (the members the
embedded fragment uses). -/
inductive ErrorCode where
  | VALIDATION_ERROR
  | INVALID_INPUT
  | ACCESS_DENIED
  | EXECUTION_FAILED
  | PROMPT_NOT_FOUND
  deriving DecidableEq, Repr

/-- The repository's structured `PromptHubMCPError` (code, message, details);
`details` keeps the string lists the source attaches (validator error
lists), other detail payloads are represented by `[]`. -/
structure PromptHubMCPError where
  code : ErrorCode
  message : String
  details : List String := []
  deriving DecidableEq, Repr

/-- A thrown JS exception: either a structured `PromptHubMCPError`, the
`TypeError` produced by dereferencing a missing map entry, or an engine
stack overflow (unreachable with the fuel chosen below). -/
inductive JSError where
  | hubError : PromptHubMCPError → JSError
  | typeError : JSError
  | stackOverflow : JSError
  deriving DecidableEq, Repr

/-! ## DAG data model (`src/core/prompt-router.ts`) -/

/-- `DAGNode` of prompt-router.ts. -/
structure DAGNode where
  id : String
  promptId : String
  version : Option String := none
  inputs : RecordMap := []
  dependencies : List String := []

/-- `DAGDefinition` of prompt-router.ts; `edges` are informational and are
never read by the validation/ordering/execution logic. -/
structure DAGDefinition where
  id : String
  name : String := ""
  description : String := ""
  nodes : List DAGNode
  edges : List (String × String) := []

/-- The slice of a `PromptExecutionResult` that `executeDag`,
`prepareNodeInputs` and the returned results map consume: outcome flag,
output value, and the structured error of a failed run.  (Timing and
bookkeeping metadata of `PromptExecutionResult` are never read by the
orchestrator logic and are elided.) -/
structure NodeExecResult where
  success : Bool
  output : Value
  error : Option PromptHubMCPError := none

/-- Payload of `DAGExecutionResult.error.error`: either the failed node's
recorded result error, or an exception caught by the orchestrator. -/
inductive DagErrPayload where
  | fromResult : Option PromptHubMCPError → DagErrPayload
  | thrown : JSError → DagErrPayload

/-- `DAGExecutionResult.error`. -/
structure DagError where
  nodeId : String
  error : DagErrPayload

/-- `DAGExecutionResult` of prompt-router.ts (the wall-clock
`totalExecutionTime` field is environment supplied and not modelled). -/
structure DAGExecutionResult where
  success : Bool
  results : List (String × NodeExecResult)
  executionOrder : List String
  error : Option DagError

/-! ## Topological sort (`PromptRouter.topologicalSort`) -/

/-- `nodeMap.get(id)` built from `new Map(dag.nodes.map(n => [n.id, n]))`:
for duplicate ids a JS `Map` keeps the last entry; the embedded fragment
only reaches this lookup after duplicate ids were rejected, where first and
last entry coincide. -/
def findNode (nodes : List DAGNode) (id : String) : Option DAGNode :=
  nodes.find? (fun n => n.id == id)

/-- The mutable state of the depth-first traversal in
`PromptRouter.topologicalSort`: the `visited` set, the in-progress `temp`
set, and the accumulated `result` list (built with `unshift`, i.e. by
prepending). -/
structure TopoState where
  visited : List String
  temp : List String
  result : List DAGNode

/-- The error `visit` throws when a node is revisited while in `temp`. -/
def cycleError : PromptHubMCPError :=
  { code := .VALIDATION_ERROR, message := "DAG contains cycles" }

mutual
/-- The recursive `visit` closure of `PromptRouter.topologicalSort`.
Fuel bounds the recursion depth (the JS engine's stack plays this role);
`dag.nodes.length + 1` fuel is never exhausted because each nested call
adds a fresh id to `temp`.  On a `temp` hit it throws the cycle
`ValidationError`; a missing node id raises the `TypeError` that
`nodeMap.get(nodeId)!.dependencies` would raise. -/
def visit (nodes : List DAGNode) : Nat → String → TopoState →
    Except JSError TopoState
  | 0, _, _ => .error .stackOverflow
  | fuel + 1, id, st =>
    if id ∈ st.temp then
      .error (.hubError cycleError)
    else if id ∈ st.visited then
      .ok st
    else
      match findNode nodes id with
      | none => .error .typeError
      | some node =>
        match visitDeps nodes fuel node.dependencies
            { st with temp := id :: st.temp } with
        | .error e => .error e
        | .ok st2 =>
          .ok { visited := id :: st2.visited,
                temp := st2.temp.erase id,
                result := node :: st2.result }
  termination_by fuel _ _ => (fuel, 0)

/-- The `for (const dep of node.dependencies) visit(dep)` loop. -/
def visitDeps (nodes : List DAGNode) : Nat → List String → TopoState →
    Except JSError TopoState
  | _, [], st => .ok st
  | fuel, d :: ds, st =>
    match visit nodes fuel d st with
    | .error e => .error e
    | .ok st2 => visitDeps nodes fuel ds st2
  termination_by fuel ds _ => (fuel, ds.length + 1)
end

/-- The outer `for (const node of dag.nodes) if (!visited.has(node.id))
visit(node.id)` loop of `topologicalSort`. -/
def topoLoop (nodes : List DAGNode) (fuel : Nat) :
    List DAGNode → TopoState → Except JSError TopoState
  | [], st => .ok st
  | n :: ns, st =>
    if n.id ∈ st.visited then
      topoLoop nodes fuel ns st
    else
      match visit nodes fuel n.id st with
      | .error e => .error e
      | .ok st2 => topoLoop nodes fuel ns st2

/-- `PromptRouter.topologicalSort`: run the DFS over all nodes and return
the accumulated (unshift-built) result list. -/
def topologicalSort (dag : DAGDefinition) : Except JSError (List DAGNode) :=
  match topoLoop dag.nodes (dag.nodes.length + 1) dag.nodes
      { visited := [], temp := [], result := [] } with
  | .error e => .error e
  | .ok st => .ok st.result

/-- `PromptRouter.hasCycles`: true iff `topologicalSort` throws. -/
def hasCycles (dag : DAGDefinition) : Bool :=
  match topologicalSort dag with
  | .ok _ => false
  | .error _ => true

/-- The first node/dependency pair whose dependency id names no node
(the first iteration of the nested loops in `validateDAG` that throws). -/
def findDangling (dag : DAGDefinition) : Option (String × String) :=
  dag.nodes.findSome? (fun n =>
    (n.dependencies.find? (fun d => !((dag.nodes.map (fun m => m.id)).contains d))).map
      (fun d => (n.id, d)))

/-- `PromptRouter.validateDAG`: duplicate ids, then dangling dependency
references, then cycles; each failure throws a `VALIDATION_ERROR`.
`new Set(ids).size` is the number of distinct ids, i.e. `ids.dedup.length`. -/
def validateDAG (dag : DAGDefinition) : Except PromptHubMCPError Unit :=
  if (dag.nodes.map (fun n => n.id)).dedup.length ≠ dag.nodes.length then
    .error { code := .VALIDATION_ERROR, message := "DAG contains duplicate node IDs" }
  else
    match findDangling dag with
    | some (nid, dep) =>
      .error { code := .VALIDATION_ERROR,
               message := "Node " ++ nid ++ " depends on non-existent node " ++ dep }
    | none =>
      if hasCycles dag then
        .error cycleError
      else
        .ok ()

/-! ## Node input preparation and DAG execution -/

/-- The key/value bindings `Object.assign` copies out of a dependency
output: the fields of an object, the index/element bindings of an array
(JS `typeof` is `'object'` for arrays), nothing for `null` or scalars. -/
def objectBindings : Value → RecordMap
  | .vObj fields => fields
  | .vArr elems => elems.enum.map (fun p => (toString p.1, p.2))
  | _ => []

/-- `PromptRouter.prepareNodeInputs`: start from the node's literal inputs,
shallow-merge the output of each listed dependency whose recorded result is
present and successful and whose output is a non-null `typeof 'object'`
value, then merge the root inputs on top. -/
def prepareNodeInputs (node : DAGNode) (rootInputs : RecordMap)
    (previousResults : List (String × NodeExecResult)) : RecordMap :=
  let inputs := node.dependencies.foldl (fun acc dep =>
    match lookupA previousResults dep with
    | some r =>
      if r.success then
        match r.output with
        | .vObj fields => assignA acc fields
        | .vArr elems => assignA acc (elems.enum.map (fun p => (toString p.1, p.2)))
        | _ => acc
      else acc
    | none => acc) node.inputs
  assignA inputs rootInputs

/-- The contribution a single listed dependency makes to the node input map
(used to state the merge-precedence theorem). -/
def depContrib (previousResults : List (String × NodeExecResult))
    (dep : String) : RecordMap :=
  match lookupA previousResults dep with
  | some r => if r.success then objectBindings r.output else []
  | none => []

/-- The `for (const node of sortedNodes)` execution loop of
`PromptRouter.executeDag`.  `exec` abstracts `this.executePrompt`, which
catches internally and always returns a `PromptExecutionResult`; the loop
records the result, appends the node id to the order, and stops the whole
run on the first unsuccessful result. -/
def runNodes (exec : DAGNode → RecordMap → NodeExecResult)
    (rootInputs : RecordMap) :
    List DAGNode → List (String × NodeExecResult) → List String →
    DAGExecutionResult
  | [], results, order =>
    { success := true, results, executionOrder := order, error := none }
  | node :: rest, results, order =>
    let nodeInputs := prepareNodeInputs node rootInputs results
    let r := exec node nodeInputs
    let results := insertA results node.id r
    let order := order ++ [node.id]
    if r.success then
      runNodes exec rootInputs rest results order
    else
      { success := false, results, executionOrder := order,
        error := some { nodeId := node.id, error := .fromResult r.error } }

/-- `PromptRouter.executeDag`: validate, topologically sort, then run the
nodes in the computed order; a validation-phase exception is converted into
a failure result with `nodeId = "validation"` and empty partial state. -/
def executeDag (exec : DAGNode → RecordMap → NodeExecResult)
    (dag : DAGDefinition) (rootInputs : RecordMap) : DAGExecutionResult :=
  match validateDAG dag with
  | .error e =>
    { success := false, results := [], executionOrder := [],
      error := some { nodeId := "validation", error := .thrown (.hubError e) } }
  | .ok () =>
    match topologicalSort dag with
    | .error e =>
      { success := false, results := [], executionOrder := [],
        error := some { nodeId := "validation", error := .thrown e } }
    | .ok sorted => runNodes exec rootInputs sorted [] []

/-! ## Graph-theoretic predicates about a DAG definition -/

/-- `a` directly depends on `b`: some node with id `a` lists `b`. -/
def depStep (dag : DAGDefinition) (a b : String) : Prop :=
  ∃ n ∈ dag.nodes, n.id = a ∧ b ∈ n.dependencies

/-- The DAG contains a dependency cycle: some id reaches itself through a
nonempty chain of dependencies. -/
def hasDepCycle (dag : DAGDefinition) : Prop :=
  ∃ x, Relation.TransGen (depStep dag) x x

/-- The node list carries duplicate ids. -/
def hasDupIds (dag : DAGDefinition) : Prop :=
  ¬ (dag.nodes.map (fun n => n.id)).Nodup

/-- Some node's dependency names no node of the DAG. -/
def hasDanglingDep (dag : DAGDefinition) : Prop :=
  ∃ n ∈ dag.nodes, ∃ d ∈ n.dependencies, d ∉ dag.nodes.map (fun m => m.id)

/-- Every node of the list is followed (somewhere later in the list) by all
of its dependencies — the order the source actually produces (reverse
topological order). -/
def depsAfter : List DAGNode → Prop
  | [] => True
  | n :: rest =>
    (∀ d ∈ n.dependencies, d ∈ rest.map (fun m => m.id)) ∧ depsAfter rest

/-- Index of the first node carrying the given id. -/
def idIdx : List DAGNode → String → Nat
  | [], _ => 0
  | n :: rest, x => if n.id = x then 0 else idIdx rest x + 1

/-- Invariant of the DFS state: the visited set lists exactly the ids of the
accumulated result (in the same order), without duplicates; the accumulated
result has each node's dependencies behind it; and every accumulated node is
the node the id map yields for its id. -/
def TopoInv (nodes : List DAGNode) (st : TopoState) : Prop :=
  st.visited = st.result.map (fun n => n.id) ∧
  st.visited.Nodup ∧
  depsAfter st.result ∧
  ∀ n ∈ st.result, findNode nodes n.id = some n

/-- Postcondition of a successful `visit`/`visitDeps` call on the stated ids:
the in-progress set is restored, the visited set only grows, the requested
ids end up visited, ids visited during the call were not in progress at
entry, and the state invariant is preserved. -/
def VisitPost (nodes : List DAGNode) (st st' : TopoState)
    (ids : List String) : Prop :=
  st'.temp = st.temp ∧
  (∀ y ∈ st.visited, y ∈ st'.visited) ∧
  (∀ i ∈ ids, i ∈ st'.visited) ∧
  (∀ y ∈ st'.visited, y ∈ st.visited ∨ y ∉ st.temp) ∧
  (TopoInv nodes st → TopoInv nodes st')

/-! ## Access evaluator (`PromptModule.checkAccess`) -/

/-- The `type` discriminant of an `AccessPolicy` (`'public' | 'private' |
'token_gated' | 'nft_gated' | 'custom'`). -/
inductive AccessPolicyType where
  | publicAccess
  | privateAccess
  | tokenGated
  | nftGated
  | custom
  deriving DecidableEq, Repr

/-- `AccessPolicy` (the fields the embedded fragment reads;
`tokenAddress`/`minimumBalance`/`maxUsagePerDay` are declared but never read
by `checkAccess` and are elided). -/
structure AccessPolicy where
  type : AccessPolicyType
  whitelist : Option (List String) := none
  expirationDate : Option Nat := none

/-- The expiration check after the `switch` in `checkAccess`:
`policy.expirationDate && Date.now() > policy.expirationDate` — note the JS
truthiness guard, under which an expiration date of `0` disables the check. -/
def expirationCheck (policy : AccessPolicy) (now : Nat) :
    Except PromptHubMCPError Unit :=
  match policy.expirationDate with
  | some e =>
    if 0 < e ∧ e < now then
      .error { code := .ACCESS_DENIED, message := "Access to this prompt has expired" }
    else
      .ok ()
  | none => .ok ()

/-- `PromptModule.checkAccess`: the `switch` over the policy type.  The
`public` and `private` arms `return` directly and never reach the expiration
check; `token_gated`, `nft_gated` (whose holding checks are unimplemented
stubs) and `custom` `break` out of the switch into the expiration check. -/
def checkAccess (policy : AccessPolicy) (author caller : String) (now : Nat) :
    Except PromptHubMCPError Unit :=
  match policy.type with
  | .publicAccess => .ok ()
  | .privateAccess =>
    if caller ≠ author then
      .error { code := .ACCESS_DENIED,
               message := "This prompt is private and can only be accessed by the author" }
    else
      .ok ()
  | .tokenGated => expirationCheck policy now
  | .nftGated => expirationCheck policy now
  | .custom =>
    match policy.whitelist with
    | some wl =>
      if !(wl.contains caller) then
        .error { code := .ACCESS_DENIED,
                 message := "Caller is not in the whitelist for this prompt" }
      else
        expirationCheck policy now
    | none => expirationCheck policy now

/-! ## Parameter validator (`PromptModule.validateInput`) -/

/-- The `type` field of a `ParameterSpec`. -/
inductive ParamType where
  | string
  | number
  | boolean
  | array
  | object
  deriving DecidableEq, Repr

/-- One input parameter's contract.  `pattern` models the compiled
`new RegExp(param.pattern).test` as an abstract predicate on strings (the
regular-expression engine is an external primitive). -/
structure ParameterSpec where
  type : ParamType
  required : Bool := false
  default : Option Value := none
  minLength : Option Nat := none
  maxLength : Option Nat := none
  pattern : Option (String → Bool) := none
  enum : Option (List String) := none
  minimum : Option Int := none
  maximum : Option Int := none
  minItems : Option Nat := none
  maxItems : Option Nat := none

/-- Builds the message `Parameter '<key>' <rest>`. -/
def pmsg (key rest : String) : String :=
  "Parameter \x27" ++ key ++ "\x27 " ++ rest

/-- `PromptModule.validateParameterValue`: type check, then type-specific
constraint checks in source order; the first violated check's message is
returned.  The `minLength`/`maxLength`/`minItems`/`maxItems` guards use JS
truthiness (`param.x && ...`), so a bound of `0` disables the check, while
`minimum`/`maximum` use explicit `!== undefined` checks. -/
def validateParameterValue (key : String) (value : Value)
    (param : ParameterSpec) : Option String :=
  match param.type with
  | .string =>
    match value with
    | .vStr s =>
      (match param.minLength with
       | some n => if 0 < n ∧ s.length < n then
           some (pmsg key ("must be at least " ++ toString n ++ " characters"))
         else none
       | none => none) <|>
      (match param.maxLength with
       | some n => if 0 < n ∧ n < s.length then
           some (pmsg key ("must be at most " ++ toString n ++ " characters"))
         else none
       | none => none) <|>
      (match param.pattern with
       | some test => if !(test s) then
           some (pmsg key "does not match required pattern")
         else none
       | none => none) <|>
      (match param.enum with
       | some allowed => if !(allowed.contains s) then
           some (pmsg key ("must be one of: " ++ String.intercalate ", " allowed))
         else none
       | none => none)
    | _ => some (pmsg key "must be a string")
  | .number =>
    match value with
    | .vNum n =>
      (match param.minimum with
       | some m => if n < m then
           some (pmsg key ("must be at least " ++ toString m))
         else none
       | none => none) <|>
      (match param.maximum with
       | some m => if m < n then
           some (pmsg key ("must be at most " ++ toString m))
         else none
       | none => none)
    | _ => some (pmsg key "must be a number")
  | .boolean =>
    match value with
    | .vBool _ => none
    | _ => some (pmsg key "must be a boolean")
  | .array =>
    match value with
    | .vArr elems =>
      (match param.minItems with
       | some n => if 0 < n ∧ elems.length < n then
           some (pmsg key ("must have at least " ++ toString n ++ " items"))
         else none
       | none => none) <|>
      (match param.maxItems with
       | some n => if 0 < n ∧ n < elems.length then
           some (pmsg key ("must have at most " ++ toString n ++ " items"))
         else none
       | none => none)
    | _ => some (pmsg key "must be an array")
  | .object =>
    match value with
    | .vObj _ => none
    | _ => some (pmsg key "must be an object")

/-- The error `Required parameter '<key>' is missing`. -/
def reqMsg (key : String) : String :=
  "Required parameter \x27" ++ key ++ "\x27 is missing"

/-- The warning `Unexpected parameter '<key>' will be ignored`. -/
def warnMsg (key : String) : String :=
  "Unexpected parameter \x27" ++ key ++ "\x27 will be ignored"

/-- `ValidationResult` of the source. -/
structure ValidationResult where
  valid : Bool
  errors : List String
  warnings : List String

/-- `PromptModule.validateInput`: walk the declared parameters collecting
errors (required-and-absent short-circuits the per-key checks), then walk
the input keys collecting unexpected-parameter warnings; `valid` is the
emptiness of the error list. -/
def validateInput (specs : List (String × ParameterSpec)) (input : RecordMap) :
    ValidationResult :=
  let errors := specs.foldl (fun acc p =>
    if p.2.required && (lookupA input p.1).isNone then
      acc ++ [reqMsg p.1]
    else
      match lookupA input p.1 with
      | some v =>
        match validateParameterValue p.1 v p.2 with
        | some e => acc ++ [e]
        | none => acc
      | none => acc) []
  let warnings := input.foldl (fun acc p =>
    if (lookupA specs p.1).isNone then acc ++ [warnMsg p.1] else acc) []
  { valid := errors.isEmpty, errors, warnings }

/-- The error contribution one declared parameter makes to
`validateInput` (used to state the validator contract). -/
def entryErrors (input : RecordMap) (p : String × ParameterSpec) :
    List String :=
  if p.2.required && (lookupA input p.1).isNone then
    [reqMsg p.1]
  else
    match lookupA input p.1 with
    | some v => (validateParameterValue p.1 v p.2).toList
    | none => []

/-! ## Prompt execution pipeline (`PromptModule.execute`) -/

/-- The fields of `PromptDefinition` the embedded pipeline reads. -/
structure PromptDefinition where
  id : String
  version : String
  name : String
  template : String
  inputs : List (String × ParameterSpec)

/-- The fields of `PromptMetadata` the embedded pipeline reads (author for
the private-access check, the access policy, and the statistics exposed by
`getMetadata`). -/
structure PromptMetadata where
  author : String
  accessPolicy : AccessPolicy
  executionCount : Nat := 0
  updatedAt : Nat := 0

/-- The mutable per-module state (`executionCount`, `lastExecutionTime`). -/
structure ModuleState where
  executionCount : Nat := 0
  lastExecutionTime : Option Nat := none

/-- `ExecutionContext` (the fields the module pipeline reads). -/
structure ExecutionContext where
  caller : String
  requestId : String
  timestamp : Nat

/-- `ExecutionContextSchema.safeParse(context)` of the repository's types
module: the schema requires `caller` and `requestId` to be strings and
`timestamp` a number (all other fields optional), with no constraint on the
strings' contents — plain `z.string()` accepts the empty string.  Over the
well-typed `ExecutionContext` record those shape requirements hold by
construction, so the parse succeeds for every context, empty `caller` or
`requestId` included. -/
def ctxValid (_ : ExecutionContext) : Bool :=
  true

/-- `PromptModule.prepareExecutionInputs`: declared keys present in the
caller input pass through; absent keys with a declared default take the
default; other keys are omitted. -/
def prepareExecutionInputs (specs : List (String × ParameterSpec))
    (input : RecordMap) : RecordMap :=
  specs.foldl (fun acc p =>
    match lookupA input p.1 with
    | some v => insertA acc p.1 v
    | none =>
      match p.2.default with
      | some d => insertA acc p.1 d
      | none => acc) []

/-- One character of `JSON.stringify` string escaping (the common escapes;
exotic control characters do not occur in the embedded fragment's data). -/
def escapeChar (c : Char) : String :=
  if c = '"' then "\\\""
  else if c = '\\' then "\\\\"
  else if c = '\n' then "\\n"
  else if c = '\t' then "\\t"
  else if c = '\r' then "\\r"
  else String.singleton c

/-- `JSON.stringify` string-body escaping. -/
def escapeString (s : String) : String :=
  s.foldl (fun acc c => acc ++ escapeChar c) ""

mutual
/-- `JSON.stringify` on the embedded value type (no spacing, insertion
order preserved, strings quoted and escaped). -/
def jsonStringify : Value → String
  | .vNull => "null"
  | .vBool true => "true"
  | .vBool false => "false"
  | .vNum n => toString n
  | .vStr s => "\"" ++ escapeString s ++ "\""
  | .vArr elems => "[" ++ jsonList elems ++ "]"
  | .vObj fields => "\x7b" ++ jsonFields fields ++ "\x7d"

/-- Comma-separated serialization of an array body. -/
def jsonList : List Value → String
  | [] => ""
  | [v] => jsonStringify v
  | v :: rest => jsonStringify v ++ "," ++ jsonList rest

/-- Comma-separated serialization of an object body. -/
def jsonFields : List (String × Value) → String
  | [] => ""
  | [(k, v)] => "\"" ++ escapeString k ++ "\":" ++ jsonStringify v
  | (k, v) :: rest =>
    "\"" ++ escapeString k ++ "\":" ++ jsonStringify v ++ "," ++ jsonFields rest
end

/-- `typeof value === 'string' ? value : JSON.stringify(value)`. -/
def stringValue : Value → String
  | .vStr s => s
  | v => jsonStringify v

/-- `PromptModule.renderTemplate`: replace every occurrence of the literal
placeholder of each execution-input key by its string value (the
dependency-reference pass runs over the always-empty resolved-dependency
map of the source and is a no-op). -/
def renderTemplate (template : String) (inputs : RecordMap) : String :=
  inputs.foldl
    (fun acc p => acc.replace ("\x7b\x7b" ++ p.1 ++ "\x7d\x7d") (stringValue p.2))
    template

/-- The explicit `Date.now()` readings and external primitives one
`PromptModule.execute` call consumes: the generated execution id, the
clock values at entry, at the access check, inside the mock model call,
at the statistics update, and at result packaging, and the SHA-256
primitive of crypto-js. -/
structure ExecEnv where
  executionId : String
  now0 : Nat
  nowAccess : Nat
  nowMock : Nat
  nowLast : Nat
  nowEnd : Nat
  sha256 : String → String

/-- The mock model invocation of `PromptModule.executePrompt`. -/
def mockModelOutput (defn : PromptDefinition) (rendered : String)
    (env : ExecEnv) : Value :=
  .vObj [("text", .vStr ("Mock response for prompt: " ++ defn.name)),
         ("renderedPrompt", .vStr rendered),
         ("executionId", .vStr env.executionId),
         ("timestamp", .vNum (Int.ofNat env.nowMock))]

/-- `PromptModule.generateExecutionSignature`: SHA-256 of the canonical
serialization of the execution fingerprint record. -/
def generateExecutionSignature (env : ExecEnv) (defn : PromptDefinition)
    (input : RecordMap) (output : Value) (ctx : ExecutionContext) : String :=
  env.sha256 (jsonStringify (.vObj
    [("executionId", .vStr env.executionId),
     ("promptId", .vStr defn.id),
     ("version", .vStr defn.version),
     ("inputHash", .vStr (env.sha256 (jsonStringify (.vObj input)))),
     ("outputHash", .vStr (env.sha256 (jsonStringify output))),
     ("caller", .vStr ctx.caller),
     ("timestamp", .vNum (Int.ofNat ctx.timestamp))]))

/-- Metadata block of a `ModuleResponse`. -/
structure ResponseMetadata where
  executionId : String
  promptId : String
  version : String
  executionTime : Nat
  timestamp : Nat
  error : Option PromptHubMCPError := none

/-- `ModuleResponse` of the source. -/
structure ModuleResponse where
  success : Bool
  output : Value
  metadata : ResponseMetadata
  executionTime : Nat
  signature : Option String := none

/-- The failure `ModuleResponse` built in the catch block of
`PromptModule.execute` for a thrown `PromptHubMCPError`. -/
def failureResponse (defn : PromptDefinition) (env : ExecEnv)
    (err : PromptHubMCPError) : ModuleResponse :=
  { success := false,
    output := .vNull,
    metadata := { executionId := env.executionId, promptId := defn.id,
                  version := defn.version,
                  executionTime := env.nowEnd - env.now0,
                  timestamp := env.now0, error := some err },
    executionTime := env.nowEnd - env.now0,
    signature := none }

/-- `PromptModule.execute`: context check, input validation, access check,
input preparation, template render, (mock) model invocation, statistics
update, signature, result packaging.  Every failure is caught and packaged
as a failure `ModuleResponse`; the function is total, so no exception
escapes (the non-`PromptHubMCPError` catch arm of the source is unreachable
in the embedded fragment, whose renderer, mock model and signature
generator are total).  Returns the response together with the updated
module state. -/
def execute (defn : PromptDefinition) (md : PromptMetadata) (st : ModuleState)
    (input : RecordMap) (ctx : ExecutionContext) (env : ExecEnv) :
    ModuleResponse × ModuleState :=
  if !(ctxValid ctx) then
    (failureResponse defn env
      { code := .VALIDATION_ERROR, message := "Invalid execution context" }, st)
  else
    let inputValidation := validateInput defn.inputs input
    if !inputValidation.valid then
      (failureResponse defn env
        { code := .INVALID_INPUT, message := "Input validation failed",
          details := inputValidation.errors }, st)
    else
      match checkAccess md.accessPolicy md.author ctx.caller env.nowAccess with
      | .error e => (failureResponse defn env e, st)
      | .ok () =>
        let executionInputs := prepareExecutionInputs defn.inputs input
        let rendered := renderTemplate defn.template executionInputs
        let output := mockModelOutput defn rendered env
        let st2 : ModuleState :=
          { executionCount := st.executionCount + 1,
            lastExecutionTime := some env.nowLast }
        let signature := generateExecutionSignature env defn input output ctx
        ({ success := true,
           output := output,
           metadata := { executionId := env.executionId, promptId := defn.id,
                         version := defn.version,
                         executionTime := env.nowEnd - env.now0,
                         timestamp := env.now0, error := none },
           executionTime := env.nowEnd - env.now0,
           signature := some signature }, st2)

/-- `PromptModule.getMetadata`: the stored metadata with the live execution
count, and `updatedAt` replaced by the last execution time when one is
recorded (`this.lastExecutionTime || this.metadata.updatedAt` — JS
truthiness, so a recorded time of `0` also falls back). -/
def getMetadata (md : PromptMetadata) (st : ModuleState) : PromptMetadata :=
  { md with
    executionCount := st.executionCount,
    updatedAt :=
      match st.lastExecutionTime with
      | some t => if t = 0 then md.updatedAt else t
      | none => md.updatedAt }

/-! ## Concrete fixtures used by the behavioural theorems -/

/-- A node with no dependencies. -/
def nodeA : DAGNode := { id := "A", promptId := "prompt-a" }

/-- A node depending on `A`. -/
def nodeB : DAGNode := { id := "B", promptId := "prompt-b", dependencies := ["A"] }

/-- A node depending on `B`. -/
def nodeC : DAGNode := { id := "C", promptId := "prompt-c", dependencies := ["B"] }

/-- The two-node linear DAG `A → B` (B depends on A). -/
def dagAB : DAGDefinition := { id := "dag-ab", nodes := [nodeA, nodeB] }

/-- The three-node linear DAG `A → B → C`. -/
def dagABC : DAGDefinition := { id := "dag-abc", nodes := [nodeA, nodeB, nodeC] }

/-- A DAG with a duplicated node id. -/
def dagDup : DAGDefinition :=
  { id := "dag-dup", nodes := [nodeA, { id := "A", promptId := "prompt-a2" }] }

/-- A node-execution collaborator for which every node succeeds. -/
def okOracle : DAGNode → RecordMap → NodeExecResult :=
  fun _ _ => { success := true, output := .vObj [] }

/-- A node-execution collaborator for which exactly node `B` fails. -/
def failBOracle : DAGNode → RecordMap → NodeExecResult := fun n _ =>
  if n.id == "B" then
    { success := false, output := .vNull,
      error := some { code := .EXECUTION_FAILED, message := "Prompt execution failed" } }
  else
    { success := true, output := .vObj [] }

/-- A recorded dependency result with object output `x:2, y:3`. -/
def exDepResult : NodeExecResult :=
  { success := true, output := .vObj [("x", .vNum 2), ("y", .vNum 3)] }

/-- A node with literal input `x:1` and one dependency `d`. -/
def exNode : DAGNode :=
  { id := "n", promptId := "prompt-n", inputs := [("x", .vNum 1)],
    dependencies := ["d"] }

/-- Accumulated results holding the dependency result for `d`. -/
def exPrev : List (String × NodeExecResult) := [("d", exDepResult)]

/-- Root inputs `x:4`. -/
def exRoot : RecordMap := [("x", .vNum 4)]

/-- A public policy whose expiration date lies in the past for any
`now > 1`. -/
def pubExpiredPolicy : AccessPolicy :=
  { type := .publicAccess, expirationDate := some 1 }

/-- A token-gated policy with the same past expiration date. -/
def tokenExpiredPolicy : AccessPolicy :=
  { type := .tokenGated, expirationDate := some 1 }

/-- A custom policy without a whitelist. -/
def customOpenPolicy : AccessPolicy := { type := .custom }

/-- A prompt definition with no declared inputs. -/
def defnPlain : PromptDefinition :=
  { id := "summarize", version := "1.0.0", name := "Summarize",
    template := "Summarize", inputs := [] }

/-- A prompt definition with one required string input `text`. -/
def defnReqText : PromptDefinition :=
  { id := "summarize", version := "1.0.0", name := "Summarize",
    template := "Summarize", inputs := [("text", { type := .string, required := true })] }

/-- Metadata with a public access policy. -/
def mdPublic : PromptMetadata :=
  { author := "author-1", accessPolicy := { type := .publicAccess } }

/-- A fresh module state. -/
def stFresh : ModuleState := {}

/-- A context whose caller and requestId are both empty strings. -/
def ctxEmpty : ExecutionContext :=
  { caller := "", requestId := "", timestamp := 5 }

/-- A well-formed context. -/
def ctxAlice : ExecutionContext :=
  { caller := "alice", requestId := "req-2", timestamp := 5 }

/-- A concrete execution environment (identity stands in for SHA-256). -/
def envTest : ExecEnv :=
  { executionId := "exec-1", now0 := 10, nowAccess := 11, nowMock := 12,
    nowLast := 13, nowEnd := 25, sha256 := fun s => s }

/-! ## Association-list lemmas (JS object semantics) -/

theorem lookupA_map_overwrite_ne {α : Type} (k k' : String) (v : α)
    (h : k' ≠ k) (m : List (String × α)) :
    lookupA (m.map (fun p => if p.1 == k then (k, v) else p)) k' = lookupA m k' := by
  induction m with
  | nil => rfl
  | cons p rest ih =>
    by_cases hp : (p.1 == k) = true
    · have hpk : p.1 = k := by exact (beq_iff_eq).mp hp
      have h1 : ((k : String) == k') = false := by
        simp [beq_eq_false_iff_ne]
        exact fun hkk => h hkk.symm
      have h2 : (p.1 == k') = false := by
        rw [hpk]; exact h1
      simp [lookupA, List.find?, hp, h1, h2] at *
      exact ih
    · simp only [List.map_cons, hp, if_false, Bool.false_eq_true]
      by_cases hq : (p.1 == k') = true
      · simp [lookupA, List.find?, hq]
      · simp [lookupA, List.find?, hq] at *
        exact ih

theorem lookupA_map_overwrite_self {α : Type} (k : String) (v : α)
    (m : List (String × α)) :
    lookupA (m.map (fun p => if p.1 == k then (k, v) else p)) k =
      if m.any (fun p => p.1 == k) then some v else none := by
  induction m with
  | nil => rfl
  | cons p rest ih =>
    by_cases hp : (p.1 == k) = true
    · simp [lookupA, List.find?, hp, List.any_cons]
    · have hp' : (p.1 == k) = false := Bool.eq_false_iff.mpr hp
      simp only [List.map_cons, List.any_cons, hp', Bool.false_or, Bool.false_eq_true, if_false]
      simpa [lookupA, List.find?, hp'] using ih

theorem any_eq_false_find?_none {α : Type} (k : String) (m : List (String × α))
    (h : m.any (fun p => p.1 == k) = false) :
    List.find? (fun p => p.1 == k) m = none := by
  rw [List.find?_eq_none]
  intro x hx
  rw [List.any_eq_false] at h
  exact fun hxk => (h x hx) hxk

theorem lookupA_insertA {α : Type} (m : List (String × α)) (k k' : String) (v : α) :
    lookupA (insertA m k v) k' = if k' = k then some v else lookupA m k' := by
  by_cases hk : k' = k
  · subst hk
    unfold insertA
    by_cases ha : m.any (fun p => p.1 == k') = true
    · simp only [ha, if_true]
      rw [lookupA_map_overwrite_self, ha]
      simp
    · simp only [ha, Bool.false_eq_true, if_false, if_true]
      unfold lookupA
      rw [List.find?_append, any_eq_false_find?_none k' m (Bool.eq_false_iff.mpr ha)]
      simp [List.find?]
  · unfold insertA
    by_cases ha : m.any (fun p => p.1 == k) = true
    · simp only [ha, if_true, hk, if_false]
      exact lookupA_map_overwrite_ne k k' v hk m
    · simp only [ha, Bool.false_eq_true, if_false, hk]
      unfold lookupA
      rw [List.find?_append]
      have hkk' : ((k : String) == k') = false := by
        rw [beq_eq_false_iff_ne]
        intro hkk
        exact hk hkk.symm
      have h1 : List.find? (fun p => p.1 == k') [(k, v)] = none := by
        simp [List.find?, hkk']
      rw [h1, Option.or_none]

theorem orElseO_none {α : Type} (b : Option α) : orElseO none b = b := rfl

theorem orElseO_some {α : Type} (v : α) (b : Option α) :
    orElseO (some v) b = some v := rfl

theorem lookupA_assignA {α : Type} (s : List (String × α)) :
    ∀ (t : List (String × α)) (k : String),
    lookupA (assignA t s) k = orElseO (lastVal? s k) (lookupA t k) := by
  induction s with
  | nil => intro t k; rfl
  | cons p rest ih =>
    intro t k
    have hstep : assignA t (p :: rest) = assignA (insertA t p.1 p.2) rest := rfl
    rw [hstep, ih]
    cases hl : lastVal? rest k with
    | some v => simp [lastVal?, hl, orElseO]
    | none =>
      simp only [lastVal?, hl, orElseO]
      rw [lookupA_insertA]
      by_cases hk : k = p.1
      · have hbeq : (p.1 == k) = true := by rw [beq_iff_eq]; exact hk.symm
        simp [hk, hbeq]
      · have hbeq : (p.1 == k) = false := by
          rw [beq_eq_false_iff_ne]; exact fun h => hk h.symm
        simp [hk, hbeq]

theorem assignA_append {α : Type} (t a b : List (String × α)) :
    assignA (assignA t a) b = assignA t (a ++ b) := by
  unfold assignA
  rw [List.foldl_append]

/-! ## Node-input preparation lemmas -/

theorem depsFold_eq_assignA (prev : List (String × NodeExecResult)) :
    ∀ (deps : List String) (t : RecordMap),
    deps.foldl (fun acc dep =>
      match lookupA prev dep with
      | some r =>
        if r.success then
          match r.output with
          | .vObj fields => assignA acc fields
          | .vArr elems => assignA acc (elems.enum.map (fun p => (toString p.1, p.2)))
          | _ => acc
        else acc
      | none => acc) t
    = assignA t ((deps.map (depContrib prev)).flatten) := by
  intro deps
  induction deps with
  | nil => intro t; rfl
  | cons d ds ih =>
    intro t
    rw [List.foldl_cons, ih]
    have hstep : (match lookupA prev d with
      | some r =>
        if r.success then
          match r.output with
          | .vObj fields => assignA t fields
          | .vArr elems => assignA t (elems.enum.map (fun p => (toString p.1, p.2)))
          | _ => t
        else t
      | none => t) = assignA t (depContrib prev d) := by
      unfold depContrib
      cases lookupA prev d with
      | none => rfl
      | some r =>
        obtain ⟨s, o, e⟩ := r
        cases s
        · rfl
        · cases o <;> rfl
    rw [hstep, List.map_cons, List.flatten_cons, ← assignA_append]

theorem prepareNodeInputs_eq (node : DAGNode) (root : RecordMap)
    (prev : List (String × NodeExecResult)) :
    prepareNodeInputs node root prev =
      assignA (assignA node.inputs ((node.dependencies.map (depContrib prev)).flatten))
        root := by
  unfold prepareNodeInputs
  rw [depsFold_eq_assignA]

/-- C4: the input map a DAG node is executed with is built by merging, later
wins: the node's literal inputs, then the bindings contributed by each
listed dependency whose recorded result succeeded with an object-shaped
output (scalar and null outputs contribute nothing), then the root inputs;
consequently a node with literal input `x:1`, a dependency producing
`x:2, y:3` and root inputs `x:4` resolves to `x:4, y:3`. -/
theorem c4_input_merge_precedence :
    (∀ (node : DAGNode) (root : RecordMap)
      (prev : List (String × NodeExecResult)) (k : String),
      lookupA (prepareNodeInputs node root prev) k =
        orElseO (lastVal? root k)
          (orElseO (lastVal? ((node.dependencies.map (depContrib prev)).flatten) k)
            (lookupA node.inputs k))) ∧
    prepareNodeInputs exNode exRoot exPrev = [("x", Value.vNum 4), ("y", Value.vNum 3)] := by
  constructor
  · intro node root prev k
    rw [prepareNodeInputs_eq, lookupA_assignA]
    cases lastVal? root k with
    | some v => rfl
    | none =>
      rw [lookupA_assignA]
  · rfl

/-! ## Access-evaluator theorems -/

/-- C5 counterexample: a `public` policy whose expiration date `1` lies in
the past at time `2` is still granted, because the `public` arm returns
before the expiration check. -/
theorem c5_counterexample :
    1 < 2 ∧ checkAccess pubExpiredPolicy "author-1" "caller-1" 2 = .ok () :=
  ⟨by decide, rfl⟩

/-- C5 (amended): the expiration override applies to the policies that fall
through the type switch — `token_gated`, `nft_gated` and `custom` — denying
access with `ACCESS_DENIED` once a nonzero `expirationDate` lies strictly in
the past; `public` and (author-called) `private` policies return before the
expiration check. -/
theorem c5_expiration_denies_fallthrough :
    ∀ (policy : AccessPolicy) (author caller : String) (now e : Nat),
    policy.expirationDate = some e → 0 < e → e < now →
    (policy.type = .tokenGated ∨ policy.type = .nftGated ∨ policy.type = .custom) →
    ∃ err, checkAccess policy author caller now = .error err ∧
      err.code = .ACCESS_DENIED := by
  intro policy author caller now e hexp h0 hlt htype
  have hec : expirationCheck policy now =
      .error { code := .ACCESS_DENIED, message := "Access to this prompt has expired" } := by
    unfold expirationCheck
    rw [hexp]
    simp [h0, hlt]
  rcases htype with h | h | h
  · exact ⟨_, by unfold checkAccess; rw [h, hec], rfl⟩
  · exact ⟨_, by unfold checkAccess; rw [h, hec], rfl⟩
  · unfold checkAccess
    rw [h]
    cases hwl : policy.whitelist with
    | none => exact ⟨_, hec, rfl⟩
    | some wl =>
      by_cases hc : wl.contains caller = true
      · simp only [hc, Bool.not_true, Bool.false_eq_true, if_false]
        exact ⟨_, hec, rfl⟩
      · have hc' : wl.contains caller = false := Bool.eq_false_iff.mpr hc
        simp only [hc', Bool.not_false, if_true]
        exact ⟨_, rfl, rfl⟩

/-- C5 witness: a token-gated policy expired at time `1` is denied at
time `2`. -/
theorem c5_witness :
    ∃ err, checkAccess tokenExpiredPolicy "author-1" "caller-1" 2 = .error err ∧
      err.code = .ACCESS_DENIED :=
  c5_expiration_denies_fallthrough tokenExpiredPolicy "author-1" "caller-1" 2 1
    rfl (by decide) (by decide) (Or.inl rfl)

/-- C6 counterexample: a `custom` policy without a whitelist grants access
to an arbitrary caller (the guard `policy.whitelist && ...` falls through
when the whitelist is absent). -/
theorem c6_counterexample :
    checkAccess customOpenPolicy "author-1" "mallory" 5 = .ok () := rfl

/-- C6 (amended): for a `custom` policy without an expiration date, access
is granted iff the whitelist is absent or the caller is a member of it — an
absent whitelist allows every caller rather than denying. -/
theorem c6_custom_whitelist_gate :
    ∀ (wl : Option (List String)) (author caller : String) (now : Nat),
    checkAccess { type := .custom, whitelist := wl, expirationDate := none }
        author caller now = .ok () ↔
      (wl = none ∨ ∃ l, wl = some l ∧ caller ∈ l) := by
  intro wl author caller now
  cases wl with
  | none => simp [checkAccess, expirationCheck]
  | some l =>
    by_cases hc : l.contains caller = true
    · have hmem : caller ∈ l := List.elem_iff.mp hc
      constructor
      · intro _
        exact Or.inr ⟨l, rfl, hmem⟩
      · intro _
        simp only [checkAccess]
        simp [expirationCheck, hc, hmem]
    · have hc' : l.contains caller = false := Bool.eq_false_iff.mpr hc
      have hnm : caller ∉ l := fun hm => hc (List.elem_iff.mpr hm)
      constructor
      · intro hok
        simp [checkAccess, hc'] at hok
        rw [if_neg hnm] at hok
        cases hok
      · intro hr
        rcases hr with h | ⟨l', hl', hmem⟩
        · exact absurd h (by simp)
        · cases hl'
          exact absurd hmem hnm

/-! ## Parameter-validator theorems -/

theorem foldl_append_flatMap {α β : Type} (step : List β → α → List β)
    (f : α → List β) (h : ∀ acc x, step acc x = acc ++ f x) :
    ∀ (l : List α) (acc : List β), l.foldl step acc = acc ++ l.flatMap f := by
  intro l
  induction l with
  | nil => intro acc; simp
  | cons x xs ih =>
    intro acc
    rw [List.foldl_cons, h, ih, List.flatMap_cons, List.append_assoc]

/-- C8: `validateInput` is valid exactly when its error list is empty
(warnings never affect validity); its error list is the concatenation of
the per-declared-parameter error contributions, where a required parameter
absent from the input contributes exactly the required-parameter message
and undergoes no further checks; and every input key that is not declared
contributes an unexpected-parameter warning, not an error. -/
theorem c8_validator_contract :
    ∀ (specs : List (String × ParameterSpec)) (input : RecordMap),
    ((validateInput specs input).valid = true ↔
      (validateInput specs input).errors = []) ∧
    (validateInput specs input).errors = specs.flatMap (entryErrors input) ∧
    (validateInput specs input).warnings =
      input.flatMap (fun p => if (lookupA specs p.1).isNone then [warnMsg p.1] else []) ∧
    (∀ (key : String) (param : ParameterSpec), param.required = true →
      lookupA input key = none → entryErrors input (key, param) = [reqMsg key]) := by
  intro specs input
  have hstep : ∀ (acc : List String) (p : String × ParameterSpec),
      (if p.2.required && (lookupA input p.1).isNone then acc ++ [reqMsg p.1]
       else
         match lookupA input p.1 with
         | some v =>
           match validateParameterValue p.1 v p.2 with
           | some e => acc ++ [e]
           | none => acc
         | none => acc) = acc ++ entryErrors input p := by
    intro acc p
    unfold entryErrors
    by_cases hreq : (p.2.required && (lookupA input p.1).isNone) = true
    · simp [hreq]
    · have h' : (p.2.required && (lookupA input p.1).isNone) = false :=
        Bool.eq_false_iff.mpr hreq
      simp only [h', Bool.false_eq_true, if_false]
      cases lookupA input p.1 with
      | none => simp
      | some v =>
        cases hvv : validateParameterValue p.1 v p.2 <;> simp [hvv, Option.toList]
  have hwstep : ∀ (acc : List String) (p : String × Value),
      (if (lookupA specs p.1).isNone then acc ++ [warnMsg p.1] else acc) =
        acc ++ (if (lookupA specs p.1).isNone then [warnMsg p.1] else []) := by
    intro acc p
    by_cases hw : (lookupA specs p.1).isNone = true
    · simp [hw]
    · simp [Bool.eq_false_iff.mpr hw]
  have herr : (validateInput specs input).errors = specs.flatMap (entryErrors input) := by
    show specs.foldl _ [] = _
    rw [foldl_append_flatMap _ (entryErrors input) hstep]
    simp
  have hwarn : (validateInput specs input).warnings =
      input.flatMap (fun p => if (lookupA specs p.1).isNone then [warnMsg p.1] else []) := by
    show input.foldl _ [] = _
    rw [foldl_append_flatMap _ _ hwstep]
    simp
  refine ⟨?_, herr, hwarn, ?_⟩
  · show (validateInput specs input).errors.isEmpty = true ↔ _
    exact List.isEmpty_iff
  · intro key param hr habs
    simp [entryErrors, hr, habs]

/-- C8 witness: a declared required `text` parameter absent from the input
yields exactly the required-parameter error, and the undeclared `extra` key
yields exactly the unexpected-parameter warning. -/
theorem c8_witness :
    (validateInput defnReqText.inputs [("extra", Value.vNum 1)]).errors = [reqMsg "text"] ∧
    (validateInput defnReqText.inputs [("extra", Value.vNum 1)]).warnings = [warnMsg "extra"] ∧
    (validateInput defnReqText.inputs [("extra", Value.vNum 1)]).valid = false ∧
    entryErrors [("extra", Value.vNum 1)] ("text", { type := .string, required := true }) =
      [reqMsg "text"] := by
  have h := c8_validator_contract defnReqText.inputs [("extra", Value.vNum 1)]
  refine ⟨?_, ?_, rfl, h.2.2.2 "text" { type := .string, required := true } rfl rfl⟩
  · rw [h.2.1]
    rfl
  · rw [h.2.2.1]
    rfl

/-! ## Execution-pipeline theorems -/

/-- C7 counterexample: a context whose caller and requestId are both the
empty string is not rejected — the schema accepts it, and a prompt with a
public policy and no declared inputs executes successfully (the claim
demanded a `VALIDATION_ERROR` failure at the first stage). -/
theorem c7_counterexample :
    ctxEmpty.caller = "" ∧ ctxEmpty.requestId = "" ∧
    (execute defnPlain mdPublic stFresh [] ctxEmpty envTest).1.success = true :=
  ⟨rfl, rfl, rfl⟩

/-- C7 (amended): `ExecutionContextSchema` constrains only the shape of the
context, not the contents of its strings — every well-typed
`ExecutionContext` passes the first pipeline stage, empty `caller` or
`requestId` included, and execution proceeds to the later stages: with
empty caller and requestId, a missing required input still surfaces as an
`INVALID_INPUT` failure from input validation (not a context
`VALIDATION_ERROR`), and a prompt with no required inputs and a public
policy executes successfully. -/
theorem c7_context_shape_only :
    (∀ ctx : ExecutionContext, ctxValid ctx = true) ∧
    (execute defnReqText mdPublic stFresh [] ctxEmpty envTest).1.metadata.error =
      some { code := .INVALID_INPUT, message := "Input validation failed",
             details := [reqMsg "text"] } ∧
    (execute defnPlain mdPublic stFresh [] ctxEmpty envTest).1.success = true := by
  refine ⟨fun ctx => rfl, ?_, rfl⟩
  rfl

/-- C9: `execute` is a total function into `ModuleResponse` (no exception
escapes), and whenever the returned response is unsuccessful it carries a
null output, a populated structured error in its metadata, and the
wall-clock execution time measured from the start of the call — the timing
is present on failure exactly as on success. -/
theorem c9_failure_packaging :
    ∀ (defn : PromptDefinition) (md : PromptMetadata) (st : ModuleState)
      (input : RecordMap) (ctx : ExecutionContext) (env : ExecEnv),
    (execute defn md st input ctx env).1.success = false →
    (execute defn md st input ctx env).1.output = Value.vNull ∧
    (∃ e, (execute defn md st input ctx env).1.metadata.error = some e) ∧
    (execute defn md st input ctx env).1.executionTime = env.nowEnd - env.now0 ∧
    (execute defn md st input ctx env).1.metadata.executionTime = env.nowEnd - env.now0 := by
  intro defn md st input ctx env hfail
  by_cases hcv : ctxValid ctx = true
  · by_cases hv : (validateInput defn.inputs input).valid = true
    · cases hca : checkAccess md.accessPolicy md.author ctx.caller env.nowAccess with
      | error e =>
        have hx : execute defn md st input ctx env = (failureResponse defn env e, st) := by
          simp [execute, hcv, hv, hca]
        rw [hx]
        exact ⟨rfl, ⟨e, rfl⟩, rfl, rfl⟩
      | ok u =>
        cases u
        exfalso
        simp [execute, hcv, hv, hca] at hfail
    · have hv' := Bool.eq_false_iff.mpr hv
      have hx : execute defn md st input ctx env =
          (failureResponse defn env
            { code := .INVALID_INPUT, message := "Input validation failed",
              details := (validateInput defn.inputs input).errors }, st) := by
        simp [execute, hcv, hv']
      rw [hx]
      exact ⟨rfl, ⟨_, rfl⟩, rfl, rfl⟩
  · have hcv' := Bool.eq_false_iff.mpr hcv
    have hx : execute defn md st input ctx env =
        (failureResponse defn env
          { code := .VALIDATION_ERROR, message := "Invalid execution context" }, st) := by
      simp [execute, hcv']
    rw [hx]
    exact ⟨rfl, ⟨_, rfl⟩, rfl, rfl⟩

/-- C9 witness: a call failing input validation returns a failure response
with null output, a populated error, and the elapsed wall-clock time. -/
theorem c9_witness :
    (execute defnReqText mdPublic stFresh [] ctxAlice envTest).1.success = false ∧
    ((execute defnReqText mdPublic stFresh [] ctxAlice envTest).1.output = Value.vNull ∧
     (∃ e, (execute defnReqText mdPublic stFresh [] ctxAlice envTest).1.metadata.error = some e) ∧
     (execute defnReqText mdPublic stFresh [] ctxAlice envTest).1.executionTime = 15 ∧
     (execute defnReqText mdPublic stFresh [] ctxAlice envTest).1.metadata.executionTime = 15) :=
  ⟨rfl, c9_failure_packaging defnReqText mdPublic stFresh [] ctxAlice envTest rfl⟩

/-- C10: per `execute` call, the stored execution count — the value
`getMetadata` reports — increases by exactly one when the call returns
`success = true` and is unchanged when it returns `success = false`. -/
theorem c10_execution_count :
    ∀ (defn : PromptDefinition) (md : PromptMetadata) (st : ModuleState)
      (input : RecordMap) (ctx : ExecutionContext) (env : ExecEnv),
    ((execute defn md st input ctx env).2.executionCount =
      if (execute defn md st input ctx env).1.success then st.executionCount + 1
      else st.executionCount) ∧
    (getMetadata md ((execute defn md st input ctx env).2)).executionCount =
      (execute defn md st input ctx env).2.executionCount := by
  intro defn md st input ctx env
  refine ⟨?_, rfl⟩
  by_cases hcv : ctxValid ctx = true
  · by_cases hv : (validateInput defn.inputs input).valid = true
    · cases hca : checkAccess md.accessPolicy md.author ctx.caller env.nowAccess with
      | error e => simp [execute, hcv, hv, hca, failureResponse]
      | ok u =>
        cases u
        simp [execute, hcv, hv, hca]
    · simp [execute, hcv, Bool.eq_false_iff.mpr hv, failureResponse]
  · simp [execute, Bool.eq_false_iff.mpr hcv, failureResponse]

/-! ## Topological-sort invariants -/

theorem visit_zero (nodes : List DAGNode) (id : String) (st : TopoState) :
    visit nodes 0 id st = .error .stackOverflow := by
  rw [visit]

theorem visit_succ (nodes : List DAGNode) (fuel : Nat) (id : String) (st : TopoState) :
    visit nodes (fuel + 1) id st =
      if id ∈ st.temp then .error (.hubError cycleError)
      else if id ∈ st.visited then .ok st
      else
        match findNode nodes id with
        | none => .error .typeError
        | some node =>
          match visitDeps nodes fuel node.dependencies
              { st with temp := id :: st.temp } with
          | .error e => .error e
          | .ok st2 =>
            .ok { visited := id :: st2.visited, temp := st2.temp.erase id,
                  result := node :: st2.result } := by
  rw [visit]

theorem visitDeps_nil (nodes : List DAGNode) (fuel : Nat) (st : TopoState) :
    visitDeps nodes fuel [] st = .ok st := by
  rw [visitDeps]

theorem visitDeps_cons (nodes : List DAGNode) (fuel : Nat) (d : String)
    (ds : List String) (st : TopoState) :
    visitDeps nodes fuel (d :: ds) st =
      match visit nodes fuel d st with
      | .error e => .error e
      | .ok st2 => visitDeps nodes fuel ds st2 := by
  rw [visitDeps]

theorem visitPost_chain {nodes : List DAGNode} {st st2 st' : TopoState}
    {ids1 ids2 : List String}
    (h1 : VisitPost nodes st st2 ids1) (h2 : VisitPost nodes st2 st' ids2) :
    VisitPost nodes st st' (ids1 ++ ids2) := by
  obtain ⟨t1, m1, i1, n1, v1⟩ := h1
  obtain ⟨t2, m2, i2, n2, v2⟩ := h2
  refine ⟨t2.trans t1, fun y hy => m2 y (m1 y hy), ?_, ?_, fun hi => v2 (v1 hi)⟩
  · intro i hi
    rcases List.mem_append.mp hi with h | h
    · exact m2 i (i1 i h)
    · exact i2 i h
  · intro y hy
    rcases n2 y hy with h | h
    · rcases n1 y h with h' | h'
      · exact Or.inl h'
      · exact Or.inr h'
    · rw [t1] at h
      exact Or.inr h

theorem visit_post (nodes : List DAGNode) :
    ∀ fuel id st st', visit nodes fuel id st = .ok st' →
      VisitPost nodes st st' [id] := by
  intro fuel
  induction fuel with
  | zero =>
    intro id st st' h
    rw [visit_zero] at h
    cases h
  | succ fuel ih =>
    have hB : ∀ ds st st', visitDeps nodes fuel ds st = .ok st' →
        VisitPost nodes st st' ds := by
      intro ds
      induction ds with
      | nil =>
        intro st st' h
        rw [visitDeps_nil] at h
        cases h
        exact ⟨rfl, fun y hy => hy, fun i hi => absurd hi (List.not_mem_nil i),
          fun y hy => Or.inl hy, fun hi => hi⟩
      | cons d ds ihds =>
        intro st st' h
        rw [visitDeps_cons] at h
        cases hv : visit nodes fuel d st with
        | error e =>
          rw [hv] at h
          cases h
        | ok st2 =>
          rw [hv] at h
          exact visitPost_chain (ih d st st2 hv) (ihds st2 st' h)
    intro id st st' h
    rw [visit_succ] at h
    by_cases ht : id ∈ st.temp
    · rw [if_pos ht] at h
      cases h
    · rw [if_neg ht] at h
      by_cases hvis : id ∈ st.visited
      · rw [if_pos hvis] at h
        cases h
        exact ⟨rfl, fun y hy => hy,
          fun i hi => (List.mem_singleton.mp hi) ▸ hvis,
          fun y hy => Or.inl hy, fun hi => hi⟩
      · rw [if_neg hvis] at h
        cases hfn : findNode nodes id with
        | none =>
          rw [hfn] at h
          cases h
        | some node =>
          rw [hfn] at h
          simp only [] at h
          cases hvd : visitDeps nodes fuel node.dependencies
              { st with temp := id :: st.temp } with
          | error e =>
            rw [hvd] at h
            simp at h
          | ok st2 =>
            rw [hvd] at h
            simp only [Except.ok.injEq] at h
            subst h
            obtain ⟨htemp, hmono, hids, hnew, hinv⟩ := hB node.dependencies _ st2 hvd
            have htemp' : st2.temp = id :: st.temp := htemp
            refine ⟨?_, ?_, ?_, ?_, ?_⟩
            · rw [htemp']
              exact List.erase_cons_head id st.temp
            · intro y hy
              exact List.mem_cons_of_mem _ (hmono y hy)
            · intro i hi
              have hieq : i = id := List.mem_singleton.mp hi
              subst hieq
              exact List.mem_cons_self _ _
            · intro y hy
              rcases List.mem_cons.mp hy with rfl | hy2
              · exact Or.inr ht
              · rcases hnew y hy2 with h' | h'
                · exact Or.inl h'
                · exact Or.inr (fun hc => h' (List.mem_cons_of_mem _ hc))
            · intro hinvSt
              obtain ⟨hmap, hnd, hdaf, hprov⟩ := hinv hinvSt
              have hidnode : node.id = id := by
                have hfn' : List.find? (fun n => n.id == id) nodes = some node := hfn
                have hp := @List.find?_some DAGNode (fun n => n.id == id) node nodes hfn'
                exact beq_iff_eq.mp hp
              have hidnotin : id ∉ st2.visited := by
                intro hc
                rcases hnew id hc with h' | h'
                · exact hvis h'
                · exact h' (List.mem_cons_self id st.temp)
              refine ⟨?_, ?_, ?_, ?_⟩
              · show id :: st2.visited = (node :: st2.result).map (fun n => n.id)
                rw [List.map_cons, hidnode, hmap]
              · exact List.nodup_cons.mpr ⟨hidnotin, hnd⟩
              · refine ⟨?_, hdaf⟩
                intro d hd
                have hdv : d ∈ st2.visited := hids d hd
                rw [hmap] at hdv
                exact hdv
              · intro n hn
                rcases List.mem_cons.mp hn with rfl | hn2
                · rw [hidnode]
                  exact hfn
                · exact hprov n hn2

theorem topoLoop_post (nodes : List DAGNode) (fuel : Nat) :
    ∀ (ns : List DAGNode) (st st' : TopoState),
    topoLoop nodes fuel ns st = .ok st' →
    (∀ y ∈ st.visited, y ∈ st'.visited) ∧
    (∀ n ∈ ns, n.id ∈ st'.visited) ∧
    (TopoInv nodes st → TopoInv nodes st') := by
  intro ns
  induction ns with
  | nil =>
    intro st st' h
    simp only [topoLoop] at h
    cases h
    exact ⟨fun y hy => hy, fun n hn => absurd hn (List.not_mem_nil n), fun hi => hi⟩
  | cons n ns ihns =>
    intro st st' h
    simp only [topoLoop] at h
    by_cases hv : n.id ∈ st.visited
    · rw [if_pos hv] at h
      obtain ⟨m, i, inv⟩ := ihns st st' h
      refine ⟨m, ?_, inv⟩
      intro x hx
      rcases List.mem_cons.mp hx with heq | hx2
      · rw [heq]
        exact m n.id hv
      · exact i x hx2
    · rw [if_neg hv] at h
      cases hvst : visit nodes fuel n.id st with
      | error e =>
        rw [hvst] at h
        cases h
      | ok st2 =>
        rw [hvst] at h
        obtain ⟨ht2, m1, i1, n1, inv1⟩ := visit_post nodes fuel n.id st st2 hvst
        obtain ⟨m2, i2, inv2⟩ := ihns st2 st' h
        refine ⟨fun y hy => m2 y (m1 y hy), ?_, fun hi => inv2 (inv1 hi)⟩
        intro x hx
        rcases List.mem_cons.mp hx with heq | hx2
        · rw [heq]
          exact m2 n.id (i1 n.id (List.mem_singleton.mpr rfl))
        · exact i2 x hx2

theorem topologicalSort_props (dag : DAGDefinition) (res : List DAGNode)
    (h : topologicalSort dag = .ok res) :
    (res.map (fun n => n.id)).Nodup ∧
    depsAfter res ∧
    (∀ n ∈ dag.nodes, n.id ∈ res.map (fun m => m.id)) ∧
    (∀ n ∈ res, findNode dag.nodes n.id = some n) := by
  unfold topologicalSort at h
  cases hl : topoLoop dag.nodes (dag.nodes.length + 1) dag.nodes
      { visited := [], temp := [], result := [] } with
  | error e =>
    rw [hl] at h
    cases h
  | ok stF =>
    rw [hl] at h
    cases h
    obtain ⟨hm, hi, hinv⟩ := topoLoop_post dag.nodes _ dag.nodes _ stF hl
    have hInv0 : TopoInv dag.nodes { visited := [], temp := [], result := [] } :=
      ⟨rfl, List.nodup_nil, trivial, fun n hn => absurd hn (List.not_mem_nil n)⟩
    obtain ⟨hmap, hnd, hdaf, hprov⟩ := hinv hInv0
    refine ⟨?_, hdaf, ?_, hprov⟩
    · rw [← hmap]
      exact hnd
    · intro n hn
      have hx := hi n hn
      rw [hmap] at hx
      exact hx

theorem depsAfter_mem_ids : ∀ (res : List DAGNode), depsAfter res →
    ∀ n ∈ res, ∀ d ∈ n.dependencies, d ∈ res.map (fun m => m.id) := by
  intro res
  induction res with
  | nil =>
    intro _ n hn
    cases hn
  | cons m rest ih =>
    intro hda n hn d hd
    obtain ⟨hhead, htail⟩ := hda
    rcases List.mem_cons.mp hn with rfl | hn2
    · exact List.mem_cons_of_mem _ (hhead d hd)
    · exact List.mem_cons_of_mem _ (ih htail n hn2 d hd)

theorem idIdx_lt : ∀ (res : List DAGNode), depsAfter res →
    (res.map (fun m => m.id)).Nodup →
    ∀ n ∈ res, ∀ b ∈ n.dependencies, idIdx res n.id < idIdx res b := by
  intro res
  induction res with
  | nil =>
    intro _ _ n hn
    cases hn
  | cons m rest ih =>
    intro hda hnd n hn b hb
    obtain ⟨hhead, htail⟩ := hda
    have hnd' : (rest.map (fun x => x.id)).Nodup := (List.nodup_cons.mp hnd).2
    have hmid : m.id ∉ rest.map (fun x => x.id) := (List.nodup_cons.mp hnd).1
    rcases List.mem_cons.mp hn with heq | hn2
    · rw [heq] at hb ⊢
      have hb' : b ∈ rest.map (fun x => x.id) := hhead b hb
      have hbne : m.id ≠ b := by
        intro hbe
        apply hmid
        rw [hbe]
        exact hb'
      have e1 : idIdx (m :: rest) m.id = 0 := by simp [idIdx]
      have e2 : idIdx (m :: rest) b = idIdx rest b + 1 := by simp [idIdx, hbne]
      rw [e1, e2]
      exact Nat.succ_pos _
    · have hnid : n.id ∈ rest.map (fun x => x.id) := List.mem_map_of_mem _ hn2
      have hne1 : m.id ≠ n.id := by
        intro he
        apply hmid
        rw [he]
        exact hnid
      have hbmem : b ∈ rest.map (fun x => x.id) := depsAfter_mem_ids rest htail n hn2 b hb
      have hne2 : m.id ≠ b := by
        intro he
        apply hmid
        rw [he]
        exact hbmem
      have hlt := ih htail hnd' n hn2 b hb
      have e1 : idIdx (m :: rest) n.id = idIdx rest n.id + 1 := by simp [idIdx, hne1]
      have e2 : idIdx (m :: rest) b = idIdx rest b + 1 := by simp [idIdx, hne2]
      rw [e1, e2]
      exact Nat.succ_lt_succ hlt

theorem findNode_nodup : ∀ (nodes : List DAGNode),
    (nodes.map (fun n => n.id)).Nodup →
    ∀ m ∈ nodes, findNode nodes m.id = some m := by
  intro nodes
  induction nodes with
  | nil =>
    intro _ m hm
    cases hm
  | cons n rest ih =>
    intro hnd m hm
    rcases List.mem_cons.mp hm with rfl | hm2
    · unfold findNode
      simp [List.find?]
    · have hnd' := (List.nodup_cons.mp hnd).2
      have hnin := (List.nodup_cons.mp hnd).1
      have hne : (n.id == m.id) = false := by
        rw [beq_eq_false_iff_ne]
        intro he
        apply hnin
        show n.id ∈ List.map (fun x => x.id) rest
        rw [he]
        exact List.mem_map_of_mem _ hm2
      unfold findNode
      simp only [List.find?, hne]
      exact ih hnd' m hm2

theorem transGen_idIdx_lt (dag : DAGDefinition) (res : List DAGNode)
    (hsort : topologicalSort dag = .ok res)
    (hnd : (dag.nodes.map (fun n => n.id)).Nodup) :
    ∀ a b, Relation.TransGen (depStep dag) a b → idIdx res a < idIdx res b := by
  obtain ⟨hndres, hdaf, hcov, hprov⟩ := topologicalSort_props dag res hsort
  have hstep : ∀ a b, depStep dag a b → idIdx res a < idIdx res b := by
    intro a b hab
    obtain ⟨m, hm, hmid, hbdep⟩ := hab
    subst hmid
    have hamem : m.id ∈ res.map (fun n => n.id) := hcov m hm
    obtain ⟨n, hn, hnid⟩ := List.mem_map.mp hamem
    have h1 : findNode dag.nodes n.id = some n := hprov n hn
    have h2 : findNode dag.nodes m.id = some m := findNode_nodup dag.nodes hnd m hm
    rw [hnid] at h1
    have hnm : n = m := by
      rw [h1] at h2
      cases h2
      rfl
    subst hnm
    rw [← hnid]
    exact idIdx_lt res hdaf hndres n hn b hbdep
  intro a b h
  induction h with
  | single h1 => exact hstep _ _ h1
  | tail _ h2 ih => exact Nat.lt_trans ih (hstep _ _ h2)

theorem no_cycle_of_sorted (dag : DAGDefinition) (res : List DAGNode)
    (hsort : topologicalSort dag = .ok res)
    (hnd : (dag.nodes.map (fun n => n.id)).Nodup) :
    ¬ hasDepCycle dag := by
  rintro ⟨x, hx⟩
  exact Nat.lt_irrefl _ (transGen_idIdx_lt dag res hsort hnd x x hx)

theorem validateDAG_fails (dag : DAGDefinition)
    (h : hasDupIds dag ∨ hasDanglingDep dag ∨ hasDepCycle dag) :
    ∃ e, validateDAG dag = .error e ∧ e.code = .VALIDATION_ERROR := by
  by_cases hdup : hasDupIds dag
  · have hlen : (dag.nodes.map (fun n => n.id)).dedup.length ≠ dag.nodes.length := by
      intro hlen
      apply hdup
      have hsub := List.dedup_sublist (dag.nodes.map (fun n => n.id))
      have heq : (dag.nodes.map (fun n => n.id)).dedup = dag.nodes.map (fun n => n.id) :=
        hsub.eq_of_length (by rw [hlen, List.length_map])
      exact List.dedup_eq_self.mp heq
    refine ⟨{ code := .VALIDATION_ERROR, message := "DAG contains duplicate node IDs" },
      ?_, rfl⟩
    unfold validateDAG
    rw [if_pos hlen]
  · have hnd : (dag.nodes.map (fun n => n.id)).Nodup := not_not.mp hdup
    have hlen : (dag.nodes.map (fun n => n.id)).dedup.length = dag.nodes.length := by
      rw [List.dedup_eq_self.mpr hnd, List.length_map]
    cases hfd : findDangling dag with
    | some p =>
      obtain ⟨nid, dep⟩ := p
      refine ⟨{ code := .VALIDATION_ERROR,
                message := "Node " ++ nid ++ " depends on non-existent node " ++ dep },
        ?_, rfl⟩
      unfold validateDAG
      rw [if_neg (by simp [hlen]), hfd]
    | none =>
      rcases h with hdup' | hdang | hcyc
      · exact absurd hdup' hdup
      · exfalso
        obtain ⟨n, hn, d, hd, hdnot⟩ := hdang
        have hnone := List.findSome?_eq_none_iff.mp hfd n hn
        rw [Option.map_eq_none'] at hnone
        have hfind := List.find?_eq_none.mp hnone d hd
        apply hfind
        have hcont : (dag.nodes.map (fun m => m.id)).contains d = false := by
          rw [Bool.eq_false_iff]
          intro hc
          exact hdnot (List.elem_iff.mp hc)
        rw [hcont]
        rfl
      · have hcycb : hasCycles dag = true := by
          cases hsort : topologicalSort dag with
          | error e => simp [hasCycles, hsort]
          | ok res => exact absurd hcyc (no_cycle_of_sorted dag res hsort hnd)
        refine ⟨cycleError, ?_, rfl⟩
        unfold validateDAG
        rw [if_neg (by simp [hlen]), hfd, if_pos hcycb]

/-- C3: a DAG with a dependency cycle, duplicate node ids, or a dependency
referencing a non-existent node fails `executeDag` validation before any
node executes: the result is unsuccessful with empty results and execution
order, `error.nodeId = "validation"`, and the underlying thrown error
carries the `VALIDATION_ERROR` code. -/
theorem c3_validation_failure :
    ∀ (exec : DAGNode → RecordMap → NodeExecResult) (dag : DAGDefinition)
      (rootInputs : RecordMap),
    (hasDupIds dag ∨ hasDanglingDep dag ∨ hasDepCycle dag) →
    ∃ e, executeDag exec dag rootInputs =
      { success := false, results := [], executionOrder := [],
        error := some { nodeId := "validation", error := .thrown (.hubError e) } } ∧
      e.code = .VALIDATION_ERROR := by
  intro exec dag rootInputs h
  obtain ⟨e, he, hc⟩ := validateDAG_fails dag h
  refine ⟨e, ?_, hc⟩
  unfold executeDag
  rw [he]

/-- C3 witness: the DAG with a duplicated node id `A` is rejected with the
validation failure result. -/
theorem c3_witness :
    ∃ e, executeDag okOracle dagDup [] =
      { success := false, results := [], executionOrder := [],
        error := some { nodeId := "validation", error := .thrown (.hubError e) } } ∧
      e.code = .VALIDATION_ERROR :=
  c3_validation_failure okOracle dagDup [] (Or.inl (by unfold hasDupIds; decide))

/-! ## Code-behaviour theorems for the execution order -/

/-- C1 (code behaviour at a failing input): on the two-node DAG where `B`
depends on `A`, the computed execution order is `[B, A]` — node `B` runs
before its own dependency, so the order is the reverse of a topological
order (the DFS builds the result with `unshift` after visiting
dependencies). -/
theorem c1_order_reversed :
    (executeDag okOracle dagAB []).executionOrder = ["B", "A"] ∧
    "A" ∈ nodeB.dependencies ∧ nodeB.id = "B" ∧ nodeA.id = "A" ∧
    dagAB.nodes = [nodeA, nodeB] := by
  refine ⟨?_, by simp [nodeB], rfl, rfl, rfl⟩
  simp [executeDag, validateDAG, findDangling, hasCycles, topologicalSort, topoLoop,
    visit, visitDeps, findNode, dagAB, nodeA, nodeB, runNodes, prepareNodeInputs,
    lookupA, insertA, okOracle]

/-- C2 (code behaviour at the failing input): on the three-node linear DAG
`A → B → C` with `B` failing, the run is fail-fast (it stops at `B`,
records exactly the executed nodes and reports `error.nodeId = "B"`), but
the computed order is the reverse `[C, B]` rather than the claimed
`[A, B]`. -/
theorem c2_failfast_at_reversed_order :
    (executeDag failBOracle dagABC []).success = false ∧
    (executeDag failBOracle dagABC []).executionOrder = ["C", "B"] ∧
    (executeDag failBOracle dagABC []).results.map (fun p => p.1) = ["C", "B"] ∧
    (executeDag failBOracle dagABC []).error.map (fun e => e.nodeId) = some "B" := by
  refine ⟨?_, ?_, ?_, ?_⟩ <;>
    simp [executeDag, validateDAG, findDangling, hasCycles, topologicalSort, topoLoop,
      visit, visitDeps, findNode, dagABC, nodeA, nodeB, nodeC, runNodes,
      prepareNodeInputs, lookupA, insertA, failBOracle]

end PromptHub
